import Mathlib

/-!
Shallow embedding of `src/src/lib.rs` (buzzer_music.rs): the `Song` /
`NoteAndDuration` data model, the pure `get_top` frequency conversion, and the
`Player` sequencer (`new`, `pause`, `resume`, `restart`, `tick`, `play_beat`).

Conventions of the embedding:
* `u16` values are `Nat` with arithmetic wrapped by an explicit `% 65536`
  where the Rust code can wrap (`timer += 1`, `beat_timer += 1`,
  `duration -= 1`, `ticks_per_beat * song.end`); `i32` (`beat`) is `Int`.
* The PWM hardware is observed through the frequency each channel is driven
  at: a channel is `none` when muted (`set_duty_cycle_fully_off`) and
  `some f` after `set_frequency_and_duty(i, f, duty)` (which mutes and then
  programs frequency `f` at the fixed duty). The register-level
  `top`/`divider` programming is the external driver per the design.
* `arrayvec::ArrayVec` is a `List`; the capacity ceiling (whose overflow is a
  construction-time misconfiguration) is not modelled.
* The `assert!` failures of the `const fn get_top` are configuration errors
  reported at compile time; the embedding returns them as `Except.error`.
-/

namespace BuzzerMusic

/-- The modulus of `u16` arithmetic. -/
def U16 : Nat := 65536

/-- `NoteAndDuration`: a frequency (Hz) and its duration (beats), both `u16`. -/
structure NoteAndDuration where
  frequency : Nat
  duration : Nat
deriving Repr, DecidableEq

instance : Inhabited NoteAndDuration := ⟨⟨0, 0⟩⟩

/-- `Song`: per-beat note slots plus the total beat count (`end` in Rust;
`end` is a Lean keyword, hence `end_`). -/
structure Song where
  notes : List (Option (List NoteAndDuration))
  end_ : Nat
deriving Repr, DecidableEq

/-- `PWM_DIV_INT`: the fixed fractional clock divider used in PWM. -/
def PWM_DIV_INT : Nat := 64

/-- `get_top(freq, div_int)`: the PWM `top` value for a target frequency.

The Rust code computes `150_000_000. / (freq * div_int as f64)` in `f64`,
asserts `result >= 1.0` and `result <= 65535.0`, and returns
`result as u16 - 1` (a truncating cast).  For the integer frequencies the
player passes (`u16` Hz) and `div_int ≤ 255`, the denominator is below
`2 ^ 24`, so the exact quotient `150000000 / (freq * div)` is farther than
half an ulp (at most `2 ^ -25` here) from every integer it is not equal to;
the `f64` division therefore truncates and compares exactly like the
rational value, and the embedding uses exact `Nat` arithmetic:
* `div_int = 0` fails the first assert (`f64` would divide by zero);
* `result < 1.0` iff `150000000 < freq * div_int`;
* `result > 65535.0` iff `65535 * (freq * div_int) < 150000000`
  (this also covers `freq = 0`, where the `f64` quotient is `+inf`);
* otherwise the result is `⌊150000000 / (freq * div_int)⌋ - 1`. -/
def get_top (freq div_int : Nat) : Except String Nat :=
  if div_int = 0 then .error "Divider must not be 0"
  else
    let den := freq * div_int
    if 150000000 < den then .error "Frequency too high"
    else if 65535 * den < 150000000 then .error "Frequency too low: TOP exceeds 65534 max"
    else .ok (150000000 / den - 1)

/-- Modelled from the spec: `top = round(input_clock_rate / (frequency ×
divider)) − 1` with `input_clock_rate = 150,000,000`, i.e. the quotient
rounded to the nearest integer (half rounds up), minus one.  Stated only to
compare against the code's `get_top`. -/
def get_top_spec_rounded (freq div_int : Nat) : Nat :=
  (2 * 150000000 + freq * div_int) / (2 * (freq * div_int)) - 1

/-- The immutable part of `Player`: construction parameters.  `pwm_count` is
the const generic `PWM_COUNT`; `duty` is carried for fidelity but the channel
observation keeps only the driven frequency (duty is uniform). -/
structure PlayerConfig where
  song : Song
  looping : Bool
  ticks_per_beat : Nat
  duty : Nat
  pwm_count : Nat

/-- The mutable part of `Player`.  `channels j = some f` means PWM `j` is
driven at frequency `f`; `none` means it is fully off (muted). -/
structure PlayerState where
  paused : Bool
  timer : Nat
  beat_timer : Nat
  beat : Int
  current_combined_note_index : Nat
  playing_notes : List NoteAndDuration
  channels : List (Option Nat)
deriving Repr, DecidableEq

/-- `Player::new`: the state immediately after construction.  The PWMs are
passed in by the caller, so their initial observable state is a parameter. -/
def newPlayer (channels : List (Option Nat)) : PlayerState :=
  { paused := false
    timer := 0
    beat_timer := 0
    beat := -1
    current_combined_note_index := 0
    playing_notes := []
    channels := channels }

/-- `Player::pause`: if not paused, mute every channel and set `paused`. -/
def pauseOp (s : PlayerState) : PlayerState :=
  if s.paused then s
  else { s with channels := s.channels.map (fun _ => none), paused := true }

/-- `Player::resume`: clear `paused` if set. -/
def resumeOp (s : PlayerState) : PlayerState :=
  if s.paused then { s with paused := false } else s

/-- `Player::reset_internally`: set `beat = -1` and `timer = 0` (and nothing
else). -/
def reset_internally (s : PlayerState) : PlayerState :=
  { s with beat := -1, timer := 0 }

/-- `Player::restart`: `reset_internally(); pause(); resume();`. -/
def restartOp (s : PlayerState) : PlayerState :=
  resumeOp (pauseOp (reset_internally s))

/-- The wrapping `u16` decrement `duration -= 1` of `play_beat`. -/
def decDur (d : Nat) : Nat := (d + 65535) % U16

/-- A sounding note after one beat's decrement. -/
def decNote (n : NoteAndDuration) : NoteAndDuration :=
  ⟨n.frequency, decDur n.duration⟩

/-- The expiry loop of `play_beat`: walk the list left to right, decrement
each duration once, and `remove` (shift-left) every note whose decremented
duration is `0`.  The index-based `while` visits each element exactly once
(on removal the index stays put and the successor slides into it), which is
this recursion. -/
def retireLoop : List NoteAndDuration → List NoteAndDuration
  | [] => []
  | n :: rest =>
    if decDur n.duration = 0 then retireLoop rest
    else ⟨n.frequency, decDur n.duration⟩ :: retireLoop rest

/-- The notes `play_beat` appends for the (already incremented) beat:
`song.notes[beat]` when `beat < notes.len()` and the slot is `Some`. -/
def admittedNotes (cfg : PlayerConfig) (beat : Int) : List NoteAndDuration :=
  if beat < (cfg.song.notes.length : Int) then
    match cfg.song.notes.getD beat.toNat none with
    | some ns => ns
    | none => []
  else []

/-- The channel-refresh loop of `play_beat`: every channel `i < PWM_COUNT` is
rewritten — muted when `i` is past the sounding-note count, else driven at the
`i`-th sounding note's frequency. -/
def refreshChannels (pwm_count : Nat) (notes : List NoteAndDuration) : List (Option Nat) :=
  (List.range pwm_count).map (fun i => (notes.get? i).map (fun n => n.frequency))

/-- `Player::play_beat`: increment `beat`, retire expired notes, admit the
new beat's notes, refresh every channel. -/
def play_beat (cfg : PlayerConfig) (s : PlayerState) : PlayerState :=
  let beat := s.beat + 1
  let notes := retireLoop s.playing_notes ++ admittedNotes cfg beat
  { s with beat := beat
           playing_notes := notes
           channels := refreshChannels cfg.pwm_count notes }

/-- The cursor wrap of the multiplexing step: reset to `0` when the cursor
exceeds `len - PWM_COUNT` (i.e. when `cursor + PWM_COUNT - 1` would index
past the end of the list). -/
def muxWrap (len pwm_count cursor : Nat) : Nat :=
  if cursor > len - pwm_count then 0 else cursor

/-- The multiplexing step of `tick`: when more notes sound than there are
channels, re-program the last channel with the overflow note selected by the
(wrapped) cursor, then advance the cursor. -/
def muxStep (cfg : PlayerConfig) (s : PlayerState) : PlayerState :=
  if s.playing_notes.length > cfg.pwm_count then
    let cursor := muxWrap s.playing_notes.length cfg.pwm_count s.current_combined_note_index
    let f := (s.playing_notes.getD (cursor + cfg.pwm_count - 1) default).frequency
    { s with channels := s.channels.set (cfg.pwm_count - 1) (some f)
             current_combined_note_index := cursor + 1 }
  else s

/-- `ticks_per_beat * song.end`, the `u16` product used in the loop-boundary
check of `tick`. -/
def loopTicks (cfg : PlayerConfig) : Nat :=
  (cfg.ticks_per_beat * cfg.song.end_) % U16

/-- `Player::tick`: the per-call advance.  Returns the Rust `bool` (`false`
if paused or on stopping at the loop boundary, `true` otherwise) together
with the next state. -/
def tick (cfg : PlayerConfig) (s : PlayerState) : Bool × PlayerState :=
  if s.paused then (false, s)
  else
    let s1 : PlayerState :=
      { s with timer := (s.timer + 1) % U16, beat_timer := (s.beat_timer + 1) % U16 }
    if s1.timer ≠ 0 ∧ s1.timer % loopTicks cfg = 0 ∧ cfg.looping = false then
      (false, pauseOp s1)
    else
      let s2 := if s1.timer ≠ 0 ∧ s1.timer % loopTicks cfg = 0 then reset_internally s1 else s1
      let s3 := if s2.beat_timer = cfg.ticks_per_beat
                then { play_beat cfg s2 with beat_timer := 0 } else s2
      (true, muxStep cfg s3)

/-- The state after `k` consecutive `tick` calls. -/
def iterTick (cfg : PlayerConfig) (s : PlayerState) : Nat → PlayerState
  | 0 => s
  | k + 1 => (tick cfg (iterTick cfg s k)).2

/-- The state after `k` consecutive multiplexing steps (the part of `tick`
that runs on every tick; the claim's hypothesis that the sounding-note list
is unchanged over the window makes the other parts of `tick` irrelevant, and
`muxStep` itself never changes the list). -/
def iterMux (cfg : PlayerConfig) (s : PlayerState) : Nat → PlayerState
  | 0 => s
  | k + 1 => muxStep cfg (iterMux cfg s k)

/-- The wrapped multiplex cursor in effect at the `(k+1)`-th consecutive
multiplexing step: the overflow note it programs sits at index
`muxCursorAt cfg s k + pwm_count - 1`. -/
def muxCursorAt (cfg : PlayerConfig) (s : PlayerState) (k : Nat) : Nat :=
  muxWrap s.playing_notes.length cfg.pwm_count
    ((iterMux cfg s k).current_combined_note_index)

/-- The note-list evolution across beats while playback continues: at each
beat the expiry loop of `play_beat` runs and then the beat's new notes
(`A k`, an arbitrary admission sequence covering whatever the score holds)
are appended — exactly the shape `play_beat` gives the list (see
`play_beat_notes_shape` inside `note_lifetime`). -/
def beatSeq (A : Nat → List NoteAndDuration) (L : List NoteAndDuration) :
    Nat → List NoteAndDuration
  | 0 => L
  | k + 1 => retireLoop (beatSeq A L k) ++ A k

/-- Tracking apparatus (not part of the code): the position a note at index
`i` occupies after one expiry pass, or `none` when that pass removes it. -/
def surviveIdx (M : List NoteAndDuration) (i : Nat) : Option Nat :=
  match M.get? i with
  | none => none
  | some n =>
    if decDur n.duration = 0 then none
    else some (((M.take i).map decNote).countP (fun m => m.duration != 0))

/-- Tracking apparatus: the position of the descendant of the note at index
`i` of `L` after `k` beats, `none` once it has been retired. -/
def descSeq (A : Nat → List NoteAndDuration) (L : List NoteAndDuration) (i : Nat) :
    Nat → Option Nat
  | 0 => some i
  | k + 1 =>
    match descSeq A L i k with
    | none => none
    | some j => surviveIdx (beatSeq A L k) j

/-- The states reachable from construction through the public operations. -/
inductive Reachable (cfg : PlayerConfig) : PlayerState → Prop where
  | new (channels : List (Option Nat)) : Reachable cfg (newPlayer channels)
  | stepTick (s : PlayerState) : Reachable cfg s → Reachable cfg (tick cfg s).2
  | stepPause (s : PlayerState) : Reachable cfg s → Reachable cfg (pauseOp s)
  | stepResume (s : PlayerState) : Reachable cfg s → Reachable cfg (resumeOp s)
  | stepRestart (s : PlayerState) : Reachable cfg s → Reachable cfg (restartOp s)

/-- The concrete configuration of the spec's scenario: `ticks_per_beat = 3`,
`loop_length = 2`, one channel, a 440 Hz / 1-beat note at beat 0 and an
880 Hz / 1-beat note at beat 1, `looping = false`. -/
def songC2 : Song :=
  { notes := [some [⟨440, 1⟩], some [⟨880, 1⟩]], end_ := 2 }

/-- Player configuration for the concrete scenario (duty value arbitrary). -/
def cfgC2 : PlayerConfig :=
  { song := songC2, looping := false, ticks_per_beat := 3, duty := 100, pwm_count := 1 }

/-- The scenario's initial state: one channel, initially muted. -/
def initC2 : PlayerState := newPlayer [none]

/-- A state with two sounding notes for the one-channel configuration, used
to instantiate `mux_overflow_cycle`. -/
def sMux : PlayerState :=
  { paused := false, timer := 4, beat_timer := 1, beat := 0,
    current_combined_note_index := 0,
    playing_notes := [⟨100, 1⟩, ⟨200, 1⟩], channels := [none] }

/-- A well-formed score: every note of every beat slot has a duration in
`[1, 65535]` (the `u16` range; `≥ 1` is the compiler's invariant the engine
relies on). -/
def ScoreWF (cfg : PlayerConfig) : Prop :=
  ∀ ns ∈ cfg.song.notes, ∀ n ∈ ns.getD [], 1 ≤ n.duration ∧ n.duration ≤ 65535

/-- The sounding-list invariant: every sounding note's duration is in
`[1, 65535]`. -/
def NotesWF (s : PlayerState) : Prop :=
  ∀ n ∈ s.playing_notes, 1 ≤ n.duration ∧ n.duration ≤ 65535

/-- `true` exactly when this `tick` call takes the stop branch: not paused,
the incremented timer is a nonzero multiple of `ticks_per_beat * song.end`,
and `looping` is off. -/
def tickStops (cfg : PlayerConfig) (s : PlayerState) : Bool :=
  decide (s.paused = false ∧ (s.timer + 1) % U16 ≠ 0 ∧
    (s.timer + 1) % U16 % loopTicks cfg = 0 ∧ cfg.looping = false)

/-! ## Helper lemmas -/

/-- A paused player's `tick` is the identity and signals `false`. -/
theorem tick_of_paused (cfg : PlayerConfig) (s : PlayerState)
    (h : s.paused = true) : tick cfg s = (false, s) := by
  simp [tick, h]

@[simp] theorem muxStep_timer (cfg : PlayerConfig) (s : PlayerState) :
    (muxStep cfg s).timer = s.timer := by
  unfold muxStep; split <;> rfl

@[simp] theorem muxStep_paused (cfg : PlayerConfig) (s : PlayerState) :
    (muxStep cfg s).paused = s.paused := by
  unfold muxStep; split <;> rfl

@[simp] theorem muxStep_beat (cfg : PlayerConfig) (s : PlayerState) :
    (muxStep cfg s).beat = s.beat := by
  unfold muxStep; split <;> rfl

@[simp] theorem muxStep_beat_timer (cfg : PlayerConfig) (s : PlayerState) :
    (muxStep cfg s).beat_timer = s.beat_timer := by
  unfold muxStep; split <;> rfl

@[simp] theorem muxStep_playing_notes (cfg : PlayerConfig) (s : PlayerState) :
    (muxStep cfg s).playing_notes = s.playing_notes := by
  unfold muxStep; split <;> rfl

@[simp] theorem play_beat_timer (cfg : PlayerConfig) (s : PlayerState) :
    (play_beat cfg s).timer = s.timer := rfl

@[simp] theorem play_beat_paused (cfg : PlayerConfig) (s : PlayerState) :
    (play_beat cfg s).paused = s.paused := rfl

@[simp] theorem pauseOp_timer (s : PlayerState) : (pauseOp s).timer = s.timer := by
  unfold pauseOp; split <;> rfl

@[simp] theorem pauseOp_paused (s : PlayerState) : (pauseOp s).paused = true := by
  unfold pauseOp; split
  next h => exact h
  next h => rfl

/-- An advancing tick below the loop boundary: when the incremented timer is
not a multiple of `loopTicks`, the player stays unpaused and the timer
becomes `timer + 1`. -/
theorem tick_advance_step (cfg : PlayerConfig) (s : PlayerState)
    (hp : s.paused = false) (hlt : s.timer + 1 < U16)
    (hb : (s.timer + 1) % loopTicks cfg ≠ 0) :
    (tick cfg s).2.paused = false ∧ (tick cfg s).2.timer = s.timer + 1 := by
  have hmod : (s.timer + 1) % U16 = s.timer + 1 := Nat.mod_eq_of_lt hlt
  have h1 : ¬(s.timer + 1 ≠ 0 ∧ (s.timer + 1) % loopTicks cfg = 0 ∧ cfg.looping = false) :=
    fun h => hb h.2.1
  have h2 : ¬(s.timer + 1 ≠ 0 ∧ (s.timer + 1) % loopTicks cfg = 0) :=
    fun h => hb h.2
  simp only [tick, hp, Bool.false_eq_true, if_false, hmod, h1, h2]
  split <;> simp [hp]

/-- The stopping tick at the loop boundary with `looping = false`: the player
pauses and the timer is left at `timer + 1`. -/
theorem tick_stop_step (cfg : PlayerConfig) (s : PlayerState)
    (hp : s.paused = false) (hlt : s.timer + 1 < U16) (hnl : cfg.looping = false)
    (hb : (s.timer + 1) % loopTicks cfg = 0) :
    (tick cfg s).2.paused = true ∧ (tick cfg s).2.timer = s.timer + 1 := by
  have hmod : (s.timer + 1) % U16 = s.timer + 1 := Nat.mod_eq_of_lt hlt
  simp only [tick, hp, Bool.false_eq_true, if_false, hmod]
  rw [if_pos ⟨Nat.succ_ne_zero _, hb, hnl⟩]
  simp [hp]

theorem muxWrap_le (len pwm_count cursor : Nat) :
    muxWrap len pwm_count cursor ≤ len - pwm_count := by
  unfold muxWrap; split <;> omega

/-- When more notes sound than there are channels, `muxStep` programs the
last channel from the wrapped cursor and increments the cursor. -/
theorem muxStep_of_long (cfg : PlayerConfig) (s : PlayerState)
    (h : cfg.pwm_count < s.playing_notes.length) :
    muxStep cfg s =
      { s with
        channels := s.channels.set (cfg.pwm_count - 1)
          (some ((s.playing_notes.getD
            (muxWrap s.playing_notes.length cfg.pwm_count s.current_combined_note_index
              + cfg.pwm_count - 1) default).frequency))
        current_combined_note_index :=
          muxWrap s.playing_notes.length cfg.pwm_count s.current_combined_note_index + 1 } := by
  simp only [muxStep]
  rw [if_pos h]

theorem iterMux_frame (cfg : PlayerConfig) (s : PlayerState) : ∀ k,
    (iterMux cfg s k).playing_notes = s.playing_notes ∧
    (iterMux cfg s k).timer = s.timer ∧
    (iterMux cfg s k).beat_timer = s.beat_timer ∧
    (iterMux cfg s k).beat = s.beat ∧
    (iterMux cfg s k).paused = s.paused := by
  intro k
  induction k with
  | zero => exact ⟨rfl, rfl, rfl, rfl, rfl⟩
  | succ k ih =>
    simp only [iterMux, muxStep_playing_notes, muxStep_timer, muxStep_beat_timer,
      muxStep_beat, muxStep_paused]
    exact ih

theorem iterMux_channels_ne (cfg : PlayerConfig) (s : PlayerState)
    (hlen : cfg.pwm_count < s.playing_notes.length) :
    ∀ k j, j ≠ cfg.pwm_count - 1 →
      (iterMux cfg s k).channels.getD j none = s.channels.getD j none := by
  intro k
  induction k with
  | zero => exact fun _ _ => rfl
  | succ k ih =>
    intro j hj
    have hlen' : cfg.pwm_count < (iterMux cfg s k).playing_notes.length := by
      rw [(iterMux_frame cfg s k).1]; exact hlen
    show (muxStep cfg (iterMux cfg s k)).channels.getD j none = _
    rw [muxStep_of_long cfg _ hlen']
    simp only [List.getD_eq_getElem?_getD]
    rw [List.getElem?_set_ne (Ne.symm hj)]
    simpa only [List.getD_eq_getElem?_getD] using ih j hj

theorem muxWrap_succ (len pwm_count v : Nat) (hv : v ≤ len - pwm_count) :
    muxWrap len pwm_count (v + 1) = (v + 1) % (len - pwm_count + 1) := by
  unfold muxWrap
  split
  next h =>
    have he : v + 1 = len - pwm_count + 1 := by omega
    rw [he, Nat.mod_self]
  next h =>
    rw [Nat.mod_eq_of_lt (by omega)]

/-- The cursor used after `k+1` multiplexing steps: the next cursor is the
wrapped current one plus one. -/
theorem iterMux_cursor_succ (cfg : PlayerConfig) (s : PlayerState) (k : Nat)
    (hlen : cfg.pwm_count < s.playing_notes.length) :
    (iterMux cfg s (k + 1)).current_combined_note_index = muxCursorAt cfg s k + 1 := by
  have hlen' : cfg.pwm_count < (iterMux cfg s k).playing_notes.length := by
    rw [(iterMux_frame cfg s k).1]; exact hlen
  show (muxStep cfg (iterMux cfg s k)).current_combined_note_index = _
  rw [muxStep_of_long cfg _ hlen']
  simp [muxCursorAt, (iterMux_frame cfg s k).1]

/-- The wrapped cursor walks round-robin: after `k` steps it reads
`(w0 + k) mod (N - C + 1)` where `w0` is the initial wrapped cursor. -/
theorem muxCursorAt_mod (cfg : PlayerConfig) (s : PlayerState)
    (hlen : cfg.pwm_count < s.playing_notes.length) :
    ∀ k, muxCursorAt cfg s k =
      (muxCursorAt cfg s 0 + k) % (s.playing_notes.length - cfg.pwm_count + 1) := by
  intro k
  induction k with
  | zero =>
    have h0 : muxCursorAt cfg s 0 < s.playing_notes.length - cfg.pwm_count + 1 :=
      Nat.lt_succ_of_le (muxWrap_le _ _ _)
    rw [Nat.add_zero, Nat.mod_eq_of_lt h0]
  | succ k ih =>
    show muxWrap s.playing_notes.length cfg.pwm_count
      ((iterMux cfg s (k + 1)).current_combined_note_index) = _
    have hv : muxCursorAt cfg s k ≤ s.playing_notes.length - cfg.pwm_count :=
      muxWrap_le _ _ _
    rw [iterMux_cursor_succ cfg s k hlen, muxWrap_succ _ _ _ hv, ih, Nat.mod_add_mod,
      Nat.add_assoc]

/-- For durations in `u16` range the wrapping decrement is plain `- 1`. -/
theorem decDur_sub (x : Nat) (h1 : 1 ≤ x) (h2 : x ≤ 65536) : decDur x = x - 1 := by
  unfold decDur U16
  omega

/-- The expiry loop decrements every note once and keeps, in order, the ones
whose decremented duration is nonzero. -/
theorem retireLoop_eq (L : List NoteAndDuration) :
    retireLoop L = (L.map decNote).filter (fun n => n.duration != 0) := by
  induction L with
  | nil => rfl
  | cons n rest ih =>
    by_cases h : decDur n.duration = 0 <;>
      simp [retireLoop, List.filter_cons, decNote, h, ih]

/-- In a filtered list, the element at index `j` of the original (when it
satisfies the predicate) reappears at the index given by counting the
predicate on the prefix before `j`. -/
theorem filter_get?_countP (p : NoteAndDuration → Bool) :
    ∀ (l : List NoteAndDuration) (j : Nat) (x : NoteAndDuration),
      l.get? j = some x → p x = true →
      (l.filter p).get? ((l.take j).countP p) = some x := by
  intro l
  induction l with
  | nil =>
    intro j x h _
    simp at h
  | cons a t ih =>
    intro j x h hp
    cases j with
    | zero =>
      simp only [List.get?] at h
      injection h with h
      subst h
      simp [List.filter_cons, hp]
    | succ j =>
      simp only [List.get?] at h
      simp only [List.take_succ_cons, List.countP_cons, List.filter_cons]
      by_cases hpa : p a = true
      · simpa [hpa] using ih j x h hp
      · simpa [hpa] using ih j x h hp

/-- A note that survives the expiry pass lands at `surviveIdx`, decremented,
in the retired list. -/
theorem surviveIdx_alive (M : List NoteAndDuration) (i : Nat) (n : NoteAndDuration)
    (hn : M.get? i = some n) (h : decDur n.duration ≠ 0) :
    ∃ j, surviveIdx M i = some j ∧ (retireLoop M).get? j = some (decNote n) := by
  refine ⟨((M.take i).map decNote).countP (fun m => m.duration != 0), ?_, ?_⟩
  · unfold surviveIdx
    rw [hn]
    simp [h]
  · rw [retireLoop_eq, List.map_take]
    have hx : (M.map decNote).get? i = some (decNote n) := by
      rw [List.get?_map, hn]
      rfl
    have hpx : (fun m => m.duration != 0) (decNote n) = true := by
      simpa [decNote] using h
    exact filter_get?_countP _ (M.map decNote) i (decNote n) hx hpx

/-- A note whose decremented duration reaches zero is removed: `surviveIdx`
is `none`. -/
theorem surviveIdx_dead (M : List NoteAndDuration) (i : Nat) (n : NoteAndDuration)
    (hn : M.get? i = some n) (h : decDur n.duration = 0) :
    surviveIdx M i = none := by
  unfold surviveIdx
  rw [hn]
  simp [h]

/-- Addition by a fixed offset is a bijection on residues mod `m`: every
residue is hit by exactly one `k < m`. -/
theorem mod_cycle_bij (m w0 : Nat) (hw : w0 < m) (j : Nat) (hj : j < m) :
    ∃! k, k < m ∧ (w0 + k) % m = j := by
  refine ⟨if w0 ≤ j then j - w0 else m + j - w0, ⟨?_, ?_⟩, ?_⟩
  · split <;> omega
  · split
    next h =>
      have he : w0 + (j - w0) = j := by omega
      rw [he, Nat.mod_eq_of_lt hj]
    next h =>
      have he : w0 + (m + j - w0) = m + j := by omega
      rw [he, Nat.add_mod_left, Nat.mod_eq_of_lt hj]
  · rintro k' ⟨hk', hmod⟩
    rcases Nat.lt_or_ge (w0 + k') m with h | h
    · rw [Nat.mod_eq_of_lt h] at hmod
      split <;> omega
    · have h2 : w0 + k' - m < m := by omega
      rw [Nat.mod_eq_sub_mod h, Nat.mod_eq_of_lt h2] at hmod
      split <;> omega

@[simp] theorem pauseOp_playing_notes (s : PlayerState) :
    (pauseOp s).playing_notes = s.playing_notes := by
  unfold pauseOp; split <;> rfl

@[simp] theorem resumeOp_playing_notes (s : PlayerState) :
    (resumeOp s).playing_notes = s.playing_notes := by
  unfold resumeOp; split <;> rfl

@[simp] theorem restartOp_playing_notes (s : PlayerState) :
    (restartOp s).playing_notes = s.playing_notes := by
  simp [restartOp, reset_internally]

theorem notesWF_of_eq {s t : PlayerState}
    (h : t.playing_notes = s.playing_notes) (hs : NotesWF s) : NotesWF t := by
  intro n hn
  rw [h] at hn
  exact hs n hn

/-- The expiry pass keeps durations in `[1, 65535]`: surviving notes carry
`duration - 1 ≥ 1`. -/
theorem retireLoop_wf (M : List NoteAndDuration)
    (h : ∀ n ∈ M, 1 ≤ n.duration ∧ n.duration ≤ 65535) :
    ∀ n ∈ retireLoop M, 1 ≤ n.duration ∧ n.duration ≤ 65535 := by
  intro n hn
  rw [retireLoop_eq] at hn
  obtain ⟨hmem, hp⟩ := List.mem_filter.mp hn
  obtain ⟨m, hm, rfl⟩ := List.mem_map.mp hmem
  obtain ⟨h1, h2⟩ := h m hm
  have hdec : (decNote m).duration = m.duration - 1 := by
    show decDur m.duration = m.duration - 1
    exact decDur_sub m.duration h1 (by omega)
  have hne : (decNote m).duration ≠ 0 := by simpa using hp
  omega

/-- Notes admitted from a well-formed score have durations in `[1, 65535]`. -/
theorem admittedNotes_wf (cfg : PlayerConfig) (b : Int) (hwf : ScoreWF cfg) :
    ∀ n ∈ admittedNotes cfg b, 1 ≤ n.duration ∧ n.duration ≤ 65535 := by
  intro n hn
  unfold admittedNotes at hn
  by_cases hb : b < (cfg.song.notes.length : Int)
  · rw [if_pos hb] at hn
    rcases hg : cfg.song.notes[b.toNat]? with _ | slot
    · have hnone : cfg.song.notes.getD b.toNat none = none := by
        rw [List.getD_eq_getElem?_getD, hg]
        rfl
      rw [hnone] at hn
      exact (List.not_mem_nil n hn).elim
    · have hsome : cfg.song.notes.getD b.toNat none = slot := by
        rw [List.getD_eq_getElem?_getD, hg]
        rfl
      rw [hsome] at hn
      have hmem : slot ∈ cfg.song.notes := List.get?_mem (by rw [List.get?_eq_getElem?, hg])
      cases slot with
      | none => exact (List.not_mem_nil n hn).elim
      | some ns => exact hwf (some ns) hmem n hn
  · rw [if_neg hb] at hn
    exact (List.not_mem_nil n hn).elim

theorem play_beat_wf (cfg : PlayerConfig) (s : PlayerState) (hwf : ScoreWF cfg)
    (h : NotesWF s) : NotesWF (play_beat cfg s) := by
  intro n hn
  have hn' : n ∈ retireLoop s.playing_notes ++ admittedNotes cfg (s.beat + 1) := hn
  rcases List.mem_append.mp hn' with hm | hm
  · exact retireLoop_wf s.playing_notes h n hm
  · exact admittedNotes_wf cfg (s.beat + 1) hwf n hm

theorem tick_wf (cfg : PlayerConfig) (s : PlayerState) (hwf : ScoreWF cfg)
    (h : NotesWF s) : NotesWF (tick cfg s).2 := by
  by_cases hp : s.paused = true
  · have he : (tick cfg s).2 = s := by simp [tick, hp]
    rw [he]
    exact h
  · simp only [tick, if_neg hp]
    split
    · exact notesWF_of_eq (by simp) h
    · apply notesWF_of_eq (muxStep_playing_notes cfg _)
      split <;> split
      all_goals
        first
        | (apply notesWF_of_eq (s := play_beat cfg _) rfl
           apply play_beat_wf cfg _ hwf
           exact notesWF_of_eq rfl h)
        | exact notesWF_of_eq rfl h

/-- Every reachable state of a well-formed-score player satisfies the
sounding-list invariant. -/
theorem reachable_notes_wf (cfg : PlayerConfig) (hwf : ScoreWF cfg) :
    ∀ s, Reachable cfg s → NotesWF s := by
  intro s hr
  induction hr with
  | new ch => intro n hn; simp [newPlayer] at hn
  | stepTick s hs ih => exact tick_wf cfg s hwf ih
  | stepPause s hs ih => exact notesWF_of_eq (pauseOp_playing_notes s) ih
  | stepResume s hs ih => exact notesWF_of_eq (resumeOp_playing_notes s) ih
  | stepRestart s hs ih => exact notesWF_of_eq (restartOp_playing_notes s) ih

/-! ## Theorems -/

/-- Claim C1, counterexample: `restart()` does not return the engine to the
construction state.  One tick after construction (a reachable state),
`restart` leaves `beat_timer = 1`, not the construction value `0`; three
ticks in, `restart` leaves the sounding-note list non-empty, not the
construction value `[]`. -/
theorem restart_not_full_reset :
    (restartOp (iterTick cfgC2 initC2 1)).beat_timer = 1 ∧
    (newPlayer [none]).beat_timer = 0 ∧
    (restartOp (iterTick cfgC2 initC2 3)).playing_notes ≠ [] ∧
    (newPlayer [none]).playing_notes = [] ∧
    Reachable cfgC2 (iterTick cfgC2 initC2 1) ∧
    Reachable cfgC2 (iterTick cfgC2 initC2 3) := by
  refine ⟨by decide, by decide, by decide, rfl, ?_, ?_⟩
  · show Reachable cfgC2 (tick cfgC2 initC2).2
    exact .stepTick _ (.new [none])
  · show Reachable cfgC2 (tick cfgC2 (tick cfgC2 (tick cfgC2 initC2).2).2).2
    exact .stepTick _ (.stepTick _ (.stepTick _ (.new [none])))

/-- Claim C1, amended: on every state, `restart()` resets `beat` to `-1` and
`timer` to `0`, clears `paused`, and (when the player was not already paused)
freshly mutes every channel; `beat_timer`, the multiplex cursor
`current_combined_note_index`, and the sounding-note list keep their
pre-restart values rather than being reset. -/
theorem restart_partial_reset (s : PlayerState) :
    restartOp s =
      { s with beat := -1, timer := 0, paused := false,
               channels := if s.paused then s.channels
                           else s.channels.map (fun _ => none) } := by
  cases hp : s.paused <;>
    simp [restartOp, resumeOp, pauseOp, reset_internally, hp]

/-- Claim C2, counterexample: in the concrete scenario, tick 6 does not
trigger beat 1 and does not set the channel to 880 Hz — the loop-boundary
check pauses the engine and returns before the beat-boundary check runs, so
`beat` stays `0` and the channel is simply muted. -/
theorem scenario_tick6_no_beat1 :
    (iterTick cfgC2 initC2 6).beat = 0 ∧
    (iterTick cfgC2 initC2 6).beat ≠ 1 ∧
    (iterTick cfgC2 initC2 6).channels = [none] ∧
    (iterTick cfgC2 initC2 6).channels ≠ [some 880] ∧
    (iterTick cfgC2 initC2 6).playing_notes = [⟨440, 1⟩] := by decide

/-- Claim C2, amended: in the concrete scenario (`ticks_per_beat = 3`,
`loop_length = 2`, one channel, 440 Hz / 1 beat at beat 0, 880 Hz / 1 beat at
beat 1, `looping = false`): ticks 1–2 produce no beat change (channel silent,
`current_beat = -1`); tick 3 triggers beat 0 and sets the channel to 440 Hz;
ticks 4–5 leave beat 0 sounding; tick 6, being the loop boundary, pauses the
engine and mutes the channel *without* triggering beat 1 — `current_beat`
remains `0` and the 880 Hz note is never admitted. -/
theorem scenario_trace :
    ((iterTick cfgC2 initC2 1).beat = -1 ∧ (iterTick cfgC2 initC2 1).channels = [none] ∧
      (iterTick cfgC2 initC2 1).paused = false) ∧
    ((iterTick cfgC2 initC2 2).beat = -1 ∧ (iterTick cfgC2 initC2 2).channels = [none] ∧
      (iterTick cfgC2 initC2 2).paused = false) ∧
    ((iterTick cfgC2 initC2 3).beat = 0 ∧ (iterTick cfgC2 initC2 3).channels = [some 440]) ∧
    ((iterTick cfgC2 initC2 5).beat = 0 ∧ (iterTick cfgC2 initC2 5).channels = [some 440] ∧
      (iterTick cfgC2 initC2 5).paused = false) ∧
    ((iterTick cfgC2 initC2 6).paused = true ∧ (iterTick cfgC2 initC2 6).channels = [none] ∧
      (iterTick cfgC2 initC2 6).beat = 0 ∧ (iterTick cfgC2 initC2 6).playing_notes = [⟨440, 1⟩] ∧
      (tick cfgC2 (iterTick cfgC2 initC2 5)).1 = false) := by decide

/-- Claim C3, counterexample: `get_top` truncates the quotient rather than
rounding it to the nearest integer.  At frequency 440 Hz with divider 64,
`150000000 / 28160 = 5326.70…`: the code truncates to `5326` and returns
`5325`, while the round-to-nearest formula of the spec gives `5327 - 1 =
5326`. -/
theorem get_top_not_rounded :
    get_top 440 64 = Except.ok 5325 ∧
    get_top_spec_rounded 440 64 = 5326 ∧
    get_top 440 64 ≠ Except.ok (get_top_spec_rounded 440 64) := by
  refine ⟨rfl, rfl, fun h => ?_⟩
  have h5 : (5325 : Nat) = 5326 := Except.ok.inj h
  exact absurd h5 (by decide)

/-- Claim C3, amended: for every frequency `f > 0` and divider `d > 0` whose
computed period count is in the representable range, `get_top f d` equals the
quotient `150000000 / (f * d)` rounded *down* (truncated), minus one. -/
theorem get_top_floor (f d : Nat) (hd : d ≠ 0) (h1 : f * d ≤ 150000000)
    (h2 : 150000000 ≤ 65535 * (f * d)) :
    get_top f d = Except.ok (150000000 / (f * d) - 1) := by
  simp only [get_top, hd, if_false, Nat.not_lt.mpr h1, Nat.not_lt.mpr h2]

/-- Witness for `get_top_floor` at frequency 440 Hz, divider 64. -/
theorem get_top_floor_witness :
    get_top 440 64 = Except.ok (150000000 / (440 * 64) - 1) :=
  get_top_floor 440 64 (by decide) (by decide) (by decide)

/-- Claim C4: `get_top` reports a configuration error exactly when the
divider is zero, the computed period count is below 1 (`150000000 < f * d`,
frequency too high), or the computed period count exceeds the counter's
maximum (`65535 * (f * d) < 150000000`, frequency too low; this also covers
`f = 0`); an input whose computed period count is exactly 1
(`f * d = 150000000`) succeeds with top value `0`. -/
theorem get_top_error_iff (f d : Nat) :
    ((∃ e, get_top f d = Except.error e) ↔
      (d = 0 ∨ 150000000 < f * d ∨ 65535 * (f * d) < 150000000)) ∧
    (f * d = 150000000 → get_top f d = Except.ok 0) := by
  constructor
  · simp only [get_top]
    split
    next h => simp [h]
    next h =>
      split
      next h2 => simp [h, h2]
      next h2 =>
        split
        next h3 => simp [h, h2, h3]
        next h3 => simp [h, h2, h3]
  · intro hfd
    have hd : d ≠ 0 := by
      rintro rfl
      simp at hfd
    simp [get_top, hd, hfd]

/-- Witness for `get_top_error_iff`: the exact-1 period count succeeds. -/
theorem get_top_error_iff_witness : get_top 150000000 1 = Except.ok 0 :=
  (get_top_error_iff 150000000 1).2 (by decide)

/-- Claim C8: while `paused`, `tick` returns the paused signal (`false`) and
leaves the entire state — timer, beat timer, beat, multiplex cursor,
sounding-note list, and channels — unchanged. -/
theorem tick_paused_noop (cfg : PlayerConfig) (s : PlayerState)
    (h : s.paused = true) : tick cfg s = (false, s) := by
  simp [tick, h]

/-- Witness for `tick_paused_noop`: a freshly paused player. -/
theorem tick_paused_noop_witness :
    tick cfgC2 (pauseOp initC2) = (false, pauseOp initC2) :=
  tick_paused_noop cfgC2 (pauseOp initC2) (by decide)

/-- Claim C6: a note of duration `d ≥ 1` present in the sounding list right
after its admission beat `b` (index `i`, value `⟨f, d⟩`) remains in the list
through the next `d - 1` beat advances with its duration counting down
(beats `b … b + d - 1` inclusive), and from the `d`-th beat advance on
(beat `b + d`) its descendant is gone (`descSeq = none`); expiry removal is
a stable compaction (the retired list is a sublist of the decremented list,
preserving relative order); and `play_beat` evolves the list exactly as
`beatSeq` does — retire, then append the admitted notes. -/
theorem note_lifetime (A : Nat → List NoteAndDuration) (L : List NoteAndDuration)
    (i f d : Nat) (hn : L.get? i = some ⟨f, d⟩) (hd1 : 1 ≤ d) (hd2 : d ≤ 65535) :
    (∀ k, k < d → ∃ j, descSeq A L i k = some j ∧
      (beatSeq A L k).get? j = some ⟨f, d - k⟩) ∧
    (∀ k, d ≤ k → descSeq A L i k = none) ∧
    (∀ M, List.Sublist (retireLoop M) (M.map decNote)) ∧
    (∀ cfg s, (play_beat cfg s).playing_notes =
      retireLoop s.playing_notes ++ admittedNotes cfg (s.beat + 1)) := by
  have main : ∀ k, k < d → ∃ j, descSeq A L i k = some j ∧
      (beatSeq A L k).get? j = some ⟨f, d - k⟩ := by
    intro k
    induction k with
    | zero => exact fun _ => ⟨i, rfl, by simpa using hn⟩
    | succ k ih =>
      intro hk
      obtain ⟨j, hdesc, hget⟩ := ih (Nat.lt_of_succ_lt hk)
      have halive : decDur ((⟨f, d - k⟩ : NoteAndDuration).duration) ≠ 0 := by
        show decDur (d - k) ≠ 0
        rw [decDur_sub (d - k) (by omega) (by omega)]
        omega
      obtain ⟨j', hsurv, hget'⟩ := surviveIdx_alive (beatSeq A L k) j ⟨f, d - k⟩ hget halive
      refine ⟨j', ?_, ?_⟩
      · simp only [descSeq, hdesc]
        exact hsurv
      · have hlt : j' < (retireLoop (beatSeq A L k)).length := (List.get?_eq_some.mp hget').1
        have hdec : decNote ⟨f, d - k⟩ = ⟨f, d - (k + 1)⟩ := by
          unfold decNote
          rw [decDur_sub (d - k) (by omega) (by omega)]
          have he : d - k - 1 = d - (k + 1) := by omega
          rw [he]
        show (retireLoop (beatSeq A L k) ++ A k).get? j' = _
        rw [List.get?_append hlt, hget', hdec]
  have gone_d : descSeq A L i d = none := by
    obtain ⟨d', rfl⟩ : ∃ d', d = d' + 1 := ⟨d - 1, by omega⟩
    obtain ⟨j, hdesc, hget⟩ := main d' (Nat.lt_succ_self d')
    have h1 : d' + 1 - d' = 1 := by omega
    rw [h1] at hget
    have hdead : decDur ((⟨f, 1⟩ : NoteAndDuration).duration) = 0 := by
      show decDur 1 = 0
      rw [decDur_sub 1 (by omega) (by omega)]
    simp only [descSeq, hdesc]
    exact surviveIdx_dead (beatSeq A L d') j ⟨f, 1⟩ hget hdead
  have gone : ∀ k, d ≤ k → descSeq A L i k = none := by
    intro k
    induction k with
    | zero => exact fun hk => absurd hk (by omega)
    | succ k ih =>
      intro hk
      rcases Nat.lt_or_ge k d with h | h
      · have he : k + 1 = d := by omega
        rw [he]
        exact gone_d
      · simp only [descSeq, ih h]
  refine ⟨main, gone, ?_, ?_⟩
  · intro M
    rw [retireLoop_eq]
    exact List.filter_sublist _
  · intro cfg s
    rfl

/-- Witness for `note_lifetime`: a 2-beat note admitted alone is gone after
the second beat advance. -/
theorem note_lifetime_witness :
    descSeq (fun _ => []) [⟨440, 2⟩] 0 2 = none :=
  (note_lifetime (fun _ => []) [⟨440, 2⟩] 0 440 2 rfl (by decide) (by decide)).2.1
    2 (by decide)

/-- Claim C5: with `C = pwm_count ≥ 1` channels and `N > C` sounding notes,
the multiplexing step (iterated while the sounding-note list is unchanged —
and `muxStep` itself never changes it) touches nothing but the multiplex
cursor and channel `C − 1`: each step programs channel `C − 1` with the note
at index `(wrapped cursor) + C − 1` — the cursor having been wrapped to zero
exactly when it would index past the end of the list — then increments the
cursor; and over `N − C + 1` consecutive steps (`k ≤ N − C`) each overflow
index `j ∈ [C − 1, N − 1]` is programmed exactly once. -/
theorem mux_overflow_cycle (cfg : PlayerConfig) (s : PlayerState)
    (hC : 1 ≤ cfg.pwm_count) (hlen : cfg.pwm_count < s.playing_notes.length) :
    (∀ k,
      (iterMux cfg s k).playing_notes = s.playing_notes ∧
      (iterMux cfg s k).timer = s.timer ∧
      (iterMux cfg s k).beat_timer = s.beat_timer ∧
      (iterMux cfg s k).beat = s.beat ∧
      (iterMux cfg s k).paused = s.paused ∧
      (∀ j, j ≠ cfg.pwm_count - 1 →
        (iterMux cfg s k).channels.getD j none = s.channels.getD j none) ∧
      (iterMux cfg s (k + 1)).channels =
        (iterMux cfg s k).channels.set (cfg.pwm_count - 1)
          (some ((s.playing_notes.getD (muxCursorAt cfg s k + cfg.pwm_count - 1)
            default).frequency)) ∧
      (iterMux cfg s (k + 1)).current_combined_note_index = muxCursorAt cfg s k + 1) ∧
    (∀ j, cfg.pwm_count - 1 ≤ j → j < s.playing_notes.length →
      ∃! k, k ≤ s.playing_notes.length - cfg.pwm_count ∧
        muxCursorAt cfg s k + cfg.pwm_count - 1 = j) := by
  constructor
  · intro k
    have hlen' : cfg.pwm_count < (iterMux cfg s k).playing_notes.length := by
      rw [(iterMux_frame cfg s k).1]; exact hlen
    obtain ⟨h1, h2, h3, h4, h5⟩ := iterMux_frame cfg s k
    refine ⟨h1, h2, h3, h4, h5, iterMux_channels_ne cfg s hlen k, ?_,
      iterMux_cursor_succ cfg s k hlen⟩
    show (muxStep cfg (iterMux cfg s k)).channels = _
    rw [muxStep_of_long cfg _ hlen']
    simp only [muxCursorAt]
    rw [h1]
  · intro j hj1 hj2
    have hw0 : muxCursorAt cfg s 0 < s.playing_notes.length - cfg.pwm_count + 1 :=
      Nat.lt_succ_of_le (muxWrap_le _ _ _)
    have hj' : j - (cfg.pwm_count - 1) < s.playing_notes.length - cfg.pwm_count + 1 := by
      omega
    obtain ⟨k0, ⟨hk0m, hk0e⟩, huniq⟩ :=
      mod_cycle_bij (s.playing_notes.length - cfg.pwm_count + 1) (muxCursorAt cfg s 0)
        hw0 (j - (cfg.pwm_count - 1)) hj'
    refine ⟨k0, ⟨by omega, ?_⟩, ?_⟩
    · rw [muxCursorAt_mod cfg s hlen k0, hk0e]
      omega
    · rintro k' ⟨hk'le, hk'e⟩
      apply huniq
      rw [muxCursorAt_mod cfg s hlen k'] at hk'e
      exact ⟨by omega, by omega⟩

/-- Witness for `mux_overflow_cycle`: one channel, two sounding notes. -/
theorem mux_overflow_cycle_witness :
    (iterMux cfgC2 sMux 1).current_combined_note_index = 1 := by
  have h := ((mux_overflow_cycle cfgC2 sMux (by decide) (by decide)).1 0).2.2.2.2.2.2.2
  rw [h]
  decide

/-- Claim C7: starting from the initial state with `looping = false` (and a
loop length `T = ticks_per_beat * song.end` that is positive and within
`u16` range), the engine is paused exactly from tick `T` on — it transitions
to paused exactly once, at the final tick of the loop boundary — the timer
then reads `T`, and every subsequent tick leaves the whole state (in
particular the timer) unchanged. -/
theorem loop_pause_once (cfg : PlayerConfig) (ch : List (Option Nat)) (T : Nat)
    (hT : cfg.ticks_per_beat * cfg.song.end_ = T) (hl : cfg.looping = false)
    (hT0 : 0 < T) (hTU : T < U16) :
    (∀ k, ((iterTick cfg (newPlayer ch) k).paused = true ↔ T ≤ k)) ∧
    (iterTick cfg (newPlayer ch) T).timer = T ∧
    (∀ k, T ≤ k → iterTick cfg (newPlayer ch) k = iterTick cfg (newPlayer ch) T) := by
  have hloop : loopTicks cfg = T := by
    rw [loopTicks, hT, Nat.mod_eq_of_lt hTU]
  have aux : ∀ k, k < T →
      (iterTick cfg (newPlayer ch) k).timer = k ∧
      (iterTick cfg (newPlayer ch) k).paused = false := by
    intro k
    induction k with
    | zero => exact fun _ => ⟨rfl, rfl⟩
    | succ k ih =>
      intro hk
      obtain ⟨ht, hpz⟩ := ih (Nat.lt_of_succ_lt hk)
      have hadv := tick_advance_step cfg (iterTick cfg (newPlayer ch) k) hpz
        (by rw [ht]; exact Nat.lt_trans hk hTU)
        (by rw [ht, hloop, Nat.mod_eq_of_lt hk]; exact Nat.succ_ne_zero k)
      refine ⟨?_, ?_⟩
      · show (tick cfg (iterTick cfg (newPlayer ch) k)).2.timer = k + 1
        rw [hadv.2, ht]
      · exact hadv.1
  have hboundary : (iterTick cfg (newPlayer ch) T).paused = true ∧
      (iterTick cfg (newPlayer ch) T).timer = T := by
    obtain ⟨T', rfl⟩ : ∃ T', T = T' + 1 := ⟨T - 1, (Nat.succ_pred_eq_of_pos hT0).symm⟩
    obtain ⟨ht, hpz⟩ := aux T' (Nat.lt_succ_self T')
    have hstop := tick_stop_step cfg (iterTick cfg (newPlayer ch) T') hpz
      (by rw [ht]; exact hTU) hl
      (by rw [ht, hloop]; exact Nat.mod_self _)
    refine ⟨hstop.1, ?_⟩
    show (tick cfg (iterTick cfg (newPlayer ch) T')).2.timer = T' + 1
    rw [hstop.2, ht]
  have frozen : ∀ j, iterTick cfg (newPlayer ch) (T + j) = iterTick cfg (newPlayer ch) T := by
    intro j
    induction j with
    | zero => rfl
    | succ j ih =>
      show (tick cfg (iterTick cfg (newPlayer ch) (T + j))).2 = _
      rw [ih, tick_of_paused cfg _ hboundary.1]
  refine ⟨?_, hboundary.2, ?_⟩
  · intro k
    rcases Nat.lt_or_ge k T with hk | hk
    · simp [(aux k hk).2, Nat.not_le.mpr hk]
    · obtain ⟨j, rfl⟩ := Nat.exists_eq_add_of_le hk
      simp [frozen j, hboundary.1, hk]
  · intro k hk
    obtain ⟨j, rfl⟩ := Nat.exists_eq_add_of_le hk
    exact frozen j

/-- Witness for `loop_pause_once`: the concrete scenario pauses at tick 6. -/
theorem loop_pause_once_witness :
    (iterTick cfgC2 (newPlayer [none]) 6).paused = true :=
  ((loop_pause_once cfgC2 [none] 6 (by decide) rfl (by decide) (by decide)).1 6).mpr
    (by decide)

/-- Claim C10: in every state reachable from construction via `tick`,
`pause`, `resume`, and `restart`, given a score whose notes all have duration
in `[1, 65535]`, every sounding note has duration `≥ 1` (and within `u16`);
consequently the per-beat `u16` decrement never underflows (`decDur` is plain
`- 1`), and the expiry test removes a note exactly when its decremented
duration reaches zero (its decremented copy survives iff the duration was
`≥ 2`). -/
theorem playing_durations_positive (cfg : PlayerConfig) (hwf : ScoreWF cfg)
    (s : PlayerState) (hr : Reachable cfg s) :
    (∀ n ∈ s.playing_notes, 1 ≤ n.duration ∧ n.duration ≤ 65535) ∧
    (∀ n ∈ s.playing_notes, decDur n.duration = n.duration - 1) ∧
    (∀ n ∈ s.playing_notes, (decNote n ∈ retireLoop s.playing_notes ↔ 2 ≤ n.duration)) := by
  have hinv : NotesWF s := reachable_notes_wf cfg hwf s hr
  refine ⟨hinv, ?_, ?_⟩
  · intro n hn
    obtain ⟨h1, h2⟩ := hinv n hn
    exact decDur_sub n.duration h1 (by omega)
  · intro n hn
    obtain ⟨h1, h2⟩ := hinv n hn
    have hdec : (decNote n).duration = n.duration - 1 := by
      show decDur n.duration = n.duration - 1
      exact decDur_sub n.duration h1 (by omega)
    constructor
    · intro hmem
      rw [retireLoop_eq] at hmem
      have hp := List.of_mem_filter hmem
      have : (decNote n).duration ≠ 0 := by simpa using hp
      omega
    · intro h2le
      rw [retireLoop_eq]
      refine List.mem_filter.mpr ⟨List.mem_map.mpr ⟨n, hn, rfl⟩, ?_⟩
      have : (decNote n).duration ≠ 0 := by omega
      simpa using this

/-- Witness for `playing_durations_positive`: in the reachable state three
ticks into the concrete scenario, the sounding 440 Hz note's `u16` decrement
is its plain decrement. -/
theorem playing_durations_positive_witness : decDur 1 = 0 := by
  have hr : Reachable cfgC2 (iterTick cfgC2 initC2 3) := by
    show Reachable cfgC2 (tick cfgC2 (tick cfgC2 (tick cfgC2 initC2).2).2).2
    exact .stepTick _ (.stepTick _ (.stepTick _ (.new [none])))
  exact (playing_durations_positive cfgC2 (by unfold ScoreWF; decide)
    (iterTick cfgC2 initC2 3) hr).2.1 ⟨440, 1⟩ (by decide)

/-- Claim C9, counterexample: the return value of `tick` does not distinguish
"stopped" from "no-op-while-paused".  In the concrete scenario, the call that
reaches the loop boundary with `looping = false` (tick 6, made from a
non-paused state) returns `false`, the very same signal a paused no-op call
returns. -/
theorem tick_signal_not_three_valued :
    (iterTick cfgC2 initC2 5).paused = false ∧
    (tick cfgC2 (iterTick cfgC2 initC2 5)).1 = false ∧
    (tick cfgC2 (pauseOp initC2)).1 = false ∧
    (tick cfgC2 (iterTick cfgC2 initC2 5)).1 = (tick cfgC2 (pauseOp initC2)).1 := by decide

/-- Claim C9, amended: `tick` returns a two-valued signal: `true` exactly
when the call advanced, and `false` both for a no-op while paused and for the
call that stops at the loop boundary with `looping = false` — the "stopped"
outcome is not distinguished from the paused no-op. -/
theorem tick_signal (cfg : PlayerConfig) (s : PlayerState) :
    (tick cfg s).1 = (!s.paused && !tickStops cfg s) := by
  cases hp : s.paused
  · by_cases h : (s.timer + 1) % U16 ≠ 0 ∧
        (s.timer + 1) % U16 % loopTicks cfg = 0 ∧ cfg.looping = false
    · simp [tick, tickStops, hp, h]
    · simp [tick, tickStops, hp, h]
  · simp [tick, tickStops, hp]

end BuzzerMusic
